import Mathlib

/-
Shallow embedding of episode_index.py (episode index generator).

Strings are modelled as List Char.  Python regular expressions are
translated into executable recursive functions with the engine's
leftmost, non-greedy backtracking semantics:

 - re.compile(r chevron-anchored transcript_ep(\d+)\.html dollar).match(f)
   is pyMatch below.  Note Python's dollar anchor (without MULTILINE)
   matches at the end of the string OR just before one final newline,
   so a filename carrying one trailing newline also matches; this is
   modelled faithfully by tailOk.  Python \d covers every Unicode
   decimal digit; the embedding models the ASCII digits 0-9, which is
   the repertoire all claims and counterexamples use.
 - re.search of the h1 / title patterns with IGNORECASE is searchTag:
   the first (leftmost) position where the open tag matches
   case-insensitively, then the shortest run of one or more
   non-newline characters followed by the closing tag (the dot in the
   pattern does not match a newline; non-greedy plus-quantifier).
   IGNORECASE is modelled by Char.toLower, exact for the ASCII tag
   letters involved.
 - re.sub of the show-name pattern (anchored, IGNORECASE) is
   stripShowName; the whitespace class is modelled by the ASCII
   whitespace characters Python's \s contains.

File system interaction (os.listdir, open/read, the final write) is
modelled by the FS structure: listing is none when the episodes
directory does not exist, and readFile returns none when opening,
reading or UTF-8-decoding a file raises.  A raised exception is the
crashed outcome of runMain; os.path.join is modelled as
dir ++ slash ++ filename, adequate for the relative names involved.
-/

/- Case-insensitive "the pattern p is a prefix of l" (Python IGNORECASE). -/
def startsWithCI : List Char → List Char → Bool
  | [], _ => true
  | _ :: _, [] => false
  | p :: ps, c :: cs => (p.toLower == c.toLower) && startsWithCI ps cs

/- Non-greedy (.+?) up to the closing tag: the shortest nonempty run of
   non-newline characters after which closeT matches case-insensitively.
   Returns the run (the regex group). -/
def scanInner (closeT : List Char) : List Char → Option (List Char)
  | [] => none
  | c :: cs =>
    if c = '\n' then none
    else if startsWithCI closeT cs then some [c]
    else
      match scanInner closeT cs with
      | some inner => some (c :: inner)
      | none => none

/- re.search(openT ++ group ++ closeT, content, IGNORECASE): try each start
   position left to right; at the first position where the whole pattern
   matches, return the group. -/
def searchTag (openT closeT : List Char) : List Char → Option (List Char)
  | [] => none
  | c :: cs =>
    if startsWithCI openT (c :: cs) then
      match scanInner closeT ((c :: cs).drop openT.length) with
      | some inner => some inner
      | none => searchTag openT closeT cs
    else searchTag openT closeT cs

/- ASCII part of Python's whitespace class \s. -/
def isPySpace (c : Char) : Bool :=
  c == ' ' || c == '\t' || c == '\n' || c == '\r' || c == '\x0b' || c == '\x0c'

/- Greedy whitespace run (the two occurrences around the hyphen). -/
def dropWS : List Char → List Char
  | [] => []
  | c :: cs => if isPySpace c then dropWS cs else c :: cs

def showName : List Char := "Carbon and Cardboard".data

/- re.sub(anchored showName, whitespace, hyphen, whitespace pattern, empty,
   title, IGNORECASE): anchored at the start, so at most one replacement;
   if the pattern does not match, the title is returned unchanged. -/
def stripShowName (title : List Char) : List Char :=
  if startsWithCI showName title then
    match dropWS (title.drop showName.length) with
    | '-' :: rest => dropWS rest
    | _ => title
  else title

def fallbackTitle : List Char := "Unknown Episode".data

def firstH1 (content : List Char) : Option (List Char) :=
  searchTag "<h1>".data "</h1>".data content

def firstTitleTag (content : List Char) : Option (List Char) :=
  searchTag "<title>".data "</title>".data content

/- extract_episode_title, given the decoded file content (the source
   function also performs the read; the read is modelled at runMain). -/
def extract_episode_title (content : List Char) : List Char :=
  match firstH1 content with
  | some t => stripShowName t
  | none =>
    match firstTitleTag content with
    | some t => stripShowName t
    | none => fallbackTitle

/- Maximal digit run at the front of the list, plus the remainder
   (the greedy (\d+) group; backtracking never shortens it here because
   the following pattern character, a dot, is not a digit). -/
def takeDigits : List Char → List Char × List Char
  | [] => ([], [])
  | c :: cs =>
    if c.isDigit then (c :: (takeDigits cs).1, (takeDigits cs).2)
    else ([], c :: cs)

/- int() on a digit string. -/
def parseDigits (ds : List Char) : Nat :=
  ds.foldl (fun a c => a * 10 + (c.toNat - '0'.toNat)) 0

/- Python's dollar anchor without MULTILINE: end of string, or just
   before one final newline. -/
def tailOk : List Char → Bool
  | [] => true
  | [c] => c == '\n'
  | _ => false

/- pattern.match(filename) for the anchored transcript filename regex,
   returning the parsed episode number on success. -/
def pyMatch (f : List Char) : Option Nat :=
  if f.take 13 = "transcript_ep".data then
    if (takeDigits (f.drop 13)).1 = [] then none
    else if (takeDigits (f.drop 13)).2.take 5 = ".html".data then
      if tailOk ((takeDigits (f.drop 13)).2.drop 5) then
        some (parseDigits (takeDigits (f.drop 13)).1)
      else none
    else none
  else none

structure EpisodeFile where
  filename : List Char
  episode_num : Nat
  path : List Char
  deriving DecidableEq

/- Stable ascending insertion by episode_num: an element being inserted
   (which came later in the scanned order) goes after existing equal
   keys, exactly the guarantee of Python's stable list.sort. -/
def insertByNum (e : EpisodeFile) : List EpisodeFile → List EpisodeFile
  | [] => [e]
  | x :: xs =>
    if e.episode_num ≤ x.episode_num then e :: x :: xs
    else x :: insertByNum e xs

def sortByNum : List EpisodeFile → List EpisodeFile
  | [] => []
  | x :: xs => insertByNum x (sortByNum xs)

/- The record built for one matching directory entry. -/
def recOf (dir f : List Char) : Option EpisodeFile :=
  (pyMatch f).map (fun n => { filename := f, episode_num := n, path := dir ++ '/' :: f })

/- find_transcript_files: scan the listing in order, keep the matching
   names with their parsed numbers, then sort stably by episode number. -/
def find_transcript_files (dir : List Char) (listing : List (List Char)) : List EpisodeFile :=
  sortByNum (listing.filterMap (recOf dir))

structure Episode where
  filename : List Char
  episode_num : Nat
  title : List Char
  deriving DecidableEq

/- The two placeholder URL templates, episode number interpolated in
   decimal (Python str of an int). -/
def spotify_url (n : Nat) : List Char :=
  "https://open.spotify.com/show/placeholder-episode-".data ++ Nat.toDigits 10 n

def youtube_url (n : Nat) : List Char :=
  "https://youtube.com/watch?v=placeholder-episode-".data ++ Nat.toDigits 10 n

/- The eight lines html_parts.extend appends for one episode. -/
def rowLines (e : Episode) : List (List Char) :=
  [ "                <tr>".data,
    "                    <td class=\"episode-name\">".data ++ e.title ++ "</td>".data,
    "                    <td>".data,
    "                        <a href=\"".data ++ e.filename
      ++ "\" class=\"link-btn link-transcript\">Transcript</a>".data,
    "                        <a href=\"".data ++ spotify_url e.episode_num
      ++ "\" class=\"link-btn link-spotify\" target=\"_blank\">Spotify</a>".data,
    "                        <a href=\"".data ++ youtube_url e.episode_num
      ++ "\" class=\"link-btn link-youtube\" target=\"_blank\">YouTube</a>".data,
    "                    </td>".data,
    "                </tr>".data ]

/- The literal html_parts list built before the episode loop (the css
   filename is interpolated into the link line). -/
def headerParts (css : List Char) : List (List Char) :=
  [ "<!DOCTYPE html>".data,
    "<html lang=\"en\">".data,
    "<head>".data,
    "    <meta charset=\"UTF-8\">".data,
    "    <meta name=\"viewport\" content=\"width=device-width, initial-scale=1.0\">".data,
    "    <title>Carbon and Cardboard - Episode List</title>".data,
    "    <link rel=\"stylesheet\" href=\"".data ++ css ++ "\">".data,
    "    <style>".data,
    "        .episode-table \x7b".data,
    "            width: 100%;".data,
    "            border-collapse: collapse;".data,
    "            margin-top: 20px;".data,
    "        \x7d".data,
    "        .episode-table th,".data,
    "        .episode-table td \x7b".data,
    "            padding: 15px;".data,
    "            text-align: left;".data,
    "            border-bottom: 1px solid rgba(100, 255, 218, 0.2);".data,
    "        \x7d".data,
    "        .episode-table th \x7b".data,
    "            color: #64ffda;".data,
    "            font-size: 1.1em;".data,
    "            border-bottom: 2px solid rgba(100, 255, 218, 0.4);".data,
    "        \x7d".data,
    "        .episode-table tr:hover \x7b".data,
    "            background-color: rgba(100, 255, 218, 0.05);".data,
    "        \x7d".data,
    "        .episode-name \x7b".data,
    "            color: #e0e0e0;".data,
    "            font-weight: 500;".data,
    "        \x7d".data,
    "        .link-btn \x7b".data,
    "            display: inline-block;".data,
    "            padding: 8px 16px;".data,
    "            margin: 2px 4px;".data,
    "            border-radius: 4px;".data,
    "            text-decoration: none;".data,
    "            font-size: 0.9em;".data,
    "            transition: all 0.2s ease;".data,
    "        \x7d".data,
    "        .link-transcript \x7b".data,
    "            background-color: rgba(100, 255, 218, 0.15);".data,
    "            color: #64ffda;".data,
    "        \x7d".data,
    "        .link-transcript:hover \x7b".data,
    "            background-color: rgba(100, 255, 218, 0.3);".data,
    "            text-decoration: none;".data,
    "        \x7d".data,
    "        .link-spotify \x7b".data,
    "            background-color: rgba(30, 215, 96, 0.15);".data,
    "            color: #1ed760;".data,
    "        \x7d".data,
    "        .link-spotify:hover \x7b".data,
    "            background-color: rgba(30, 215, 96, 0.3);".data,
    "            text-decoration: none;".data,
    "        \x7d".data,
    "        .link-youtube \x7b".data,
    "            background-color: rgba(255, 0, 0, 0.15);".data,
    "            color: #ff4444;".data,
    "        \x7d".data,
    "        .link-youtube:hover \x7b".data,
    "            background-color: rgba(255, 0, 0, 0.3);".data,
    "            text-decoration: none;".data,
    "        \x7d".data,
    "    </style>".data,
    "</head>".data,
    "<body>".data,
    "    <div class=\"transcript-container\">".data,
    "        <h1>Carbon and Cardboard - Episode List</h1>".data,
    "        <table class=\"episode-table\">".data,
    "            <thead>".data,
    "                <tr>".data,
    "                    <th>Episode</th>".data,
    "                    <th>Links</th>".data,
    "                </tr>".data,
    "            </thead>".data,
    "            <tbody>".data ]

/- The closing lines appended after the episode loop. -/
def footerParts : List (List Char) :=
  [ "            </tbody>".data,
    "        </table>".data,
    "    </div>".data,
    "</body>".data,
    "</html>".data ]

/- generate_index_html: the literal head, then the loop extending the
   list with one row per episode in input order, then the closing lines.
   The loop is the foldl; the final document is the newline join. -/
def generate_index_html (episodes : List Episode) (css : List Char) : List (List Char) :=
  episodes.foldl (fun acc e => acc ++ rowLines e) (headerParts css) ++ footerParts

def newlineJoin (parts : List (List Char)) : List Char :=
  List.intercalate ['\n'] parts

def defaultCss : List Char := "transcript_styles.css".data

def generate_index_html_string (episodes : List Episode) (css : List Char) : List Char :=
  newlineJoin (generate_index_html episodes css)

/- The world main runs against: listing is none when the episodes
   directory does not exist; readFile returns the decoded text of a
   path, or none when opening, reading or UTF-8-decoding raises. -/
structure FS where
  dirPath : List Char
  listing : Option (List (List Char))
  readFile : List Char → Option (List Char)

inductive RunOutcome where
  | exited (code : Nat) (written : Option (List Char))
  | crashed
  deriving DecidableEq

/- The extraction loop of main: reads each file in order and builds the
   Episode records; a raised read (none) aborts the whole loop, exactly
   as an uncaught Python exception would. -/
def extractAll (readFile : List Char → Option (List Char)) :
    List EpisodeFile → Option (List Episode)
  | [] => some []
  | tf :: tfs =>
    match readFile tf.path with
    | none => none
    | some content =>
      match extractAll readFile tfs with
      | none => none
      | some eps =>
        some (({ filename := tf.filename, episode_num := tf.episode_num,
                 title := extract_episode_title content } : Episode) :: eps)

/- main: missing directory exits 1 before anything is written; an empty
   match list exits 1 before anything is written; otherwise the titles
   are extracted (an exception crashes the run with nothing written,
   since the write happens last) and the full document is written. -/
def runMain (fs : FS) : RunOutcome :=
  match fs.listing with
  | none => .exited 1 none
  | some listing =>
    match find_transcript_files fs.dirPath listing with
    | [] => .exited 1 none
    | tf :: tfs =>
      match extractAll fs.readFile (tf :: tfs) with
      | none => .crashed
      | some episodes => .exited 0 (some (generate_index_html_string episodes defaultCss))

/- Lower-cased view of a string, for stating case-insensitive matching. -/
def lowerL (l : List Char) : List Char := l.map Char.toLower

/- Declarative statement that content holds an occurrence of the tag
   pair with inner text t: an actual open tag o and close tag c that
   agree with the patterns up to case, with t the nonempty, newline-free
   enclosed text. -/
def TagMatch (openT closeT content t : List Char) : Prop :=
  ∃ a o c b, content = a ++ o ++ t ++ c ++ b ∧
    lowerL o = lowerL openT ∧ lowerL c = lowerL closeT ∧ t ≠ [] ∧ '\n' ∉ t

/- TagMatch refined with the start position of the occurrence (the
   length of the text before the open tag), for stating that the search
   returns the leftmost occurrence and, there, the shortest enclosed
   text (the non-greedy quantifier). -/
def TagMatchAt (openT closeT content t : List Char) (i : Nat) : Prop :=
  ∃ a o c b, content = a ++ o ++ t ++ c ++ b ∧ a.length = i ∧
    lowerL o = lowerL openT ∧ lowerL c = lowerL closeT ∧ t ≠ [] ∧ '\n' ∉ t

/- Modelled from the spec's words, for comparison with pyMatch: the
   filename equals transcript_ep, then one or more decimal digits, then
   .html, with no other characters. -/
def specExactMatch (f : List Char) : Bool :=
  decide (f.take 13 = "transcript_ep".data) &&
    (let p := takeDigits (f.drop 13)
     !p.1.isEmpty && decide (p.2 = ".html".data))

/- Concrete worlds and episodes evaluated by the witnesses and
   counterexamples below. -/
def fsMissingDir : FS :=
  { dirPath := "episodes".data, listing := none, readFile := fun _ => none }
def fsNoMatches : FS :=
  { dirPath := "episodes".data,
    listing := some ["readme.txt".data, "notes_ep1.html".data],
    readFile := fun _ => none }
def fsCrash : FS :=
  { dirPath := "episodes".data,
    listing := some ["transcript_ep1.html".data, "transcript_ep2.html".data],
    readFile := fun p =>
      if p = "episodes/transcript_ep2.html".data then some "<h1>Second</h1>".data
      else none }
def fsMixed : FS :=
  { dirPath := "episodes".data,
    listing := some ["transcript_ep2.html".data, "transcript_ep1.html".data],
    readFile := fun p =>
      if p = "episodes/transcript_ep1.html".data then
        some "garbage bytes, no markup at all".data
      else if p = "episodes/transcript_ep2.html".data then
        some "<h1>Carbon and Cardboard - Second</h1>".data
      else none }
def epFallback : Episode :=
  { filename := "transcript_ep3.html".data, episode_num := 3, title := fallbackTitle }
def epMarkup : Episode :=
  { filename := "transcript_ep4.html".data, episode_num := 4,
    title := "<b>&\"Weird\" & <Title></b>".data }

/- ----------------------------------------------------------------- -/
/- Helper lemmas                                                      -/
/- ----------------------------------------------------------------- -/

theorem insertByNum_perm (e : EpisodeFile) (l : List EpisodeFile) :
    List.Perm (insertByNum e l) (e :: l) := by
  induction l with
  | nil => simp [insertByNum]
  | cons x xs ih =>
    simp only [insertByNum]
    split
    · exact List.Perm.refl _
    · exact List.Perm.trans (List.Perm.cons x ih) (List.Perm.swap e x xs)

theorem sortByNum_perm (l : List EpisodeFile) : List.Perm (sortByNum l) l := by
  induction l with
  | nil => simp [sortByNum]
  | cons x xs ih =>
    exact List.Perm.trans (insertByNum_perm x (sortByNum xs)) (List.Perm.cons x ih)

theorem insertByNum_pairwise (e : EpisodeFile) (l : List EpisodeFile)
    (h : List.Pairwise (fun a b => a.episode_num ≤ b.episode_num) l) :
    List.Pairwise (fun a b => a.episode_num ≤ b.episode_num) (insertByNum e l) := by
  induction l with
  | nil => simp [insertByNum]
  | cons x xs ih =>
    rw [List.pairwise_cons] at h
    simp only [insertByNum]
    split
    · rename_i hle
      rw [List.pairwise_cons]
      constructor
      · intro b hb
        rcases List.mem_cons.mp hb with hb | hb
        · subst hb; exact hle
        · exact Nat.le_trans hle (h.1 b hb)
      · exact List.pairwise_cons.mpr h
    · rename_i hgt
      rw [List.pairwise_cons]
      constructor
      · intro b hb
        have hb' : b ∈ e :: xs := (insertByNum_perm e xs).mem_iff.mp hb
        rcases List.mem_cons.mp hb' with hb2 | hb2
        · subst hb2; exact Nat.le_of_lt (Nat.lt_of_not_le hgt)
        · exact h.1 b hb2
      · exact ih h.2

theorem sortByNum_pairwise (l : List EpisodeFile) :
    List.Pairwise (fun a b => a.episode_num ≤ b.episode_num) (sortByNum l) := by
  induction l with
  | nil => simp [sortByNum]
  | cons x xs ih => exact insertByNum_pairwise x (sortByNum xs) ih

theorem generate_loop_eq (episodes : List Episode) (acc : List (List Char)) :
    episodes.foldl (fun a e => a ++ rowLines e) acc = acc ++ episodes.flatMap rowLines := by
  induction episodes generalizing acc with
  | nil => simp
  | cons e es ih => simp [List.foldl, ih, List.append_assoc]

theorem generate_index_html_decomp (episodes : List Episode) (css : List Char) :
    generate_index_html episodes css =
      headerParts css ++ episodes.flatMap rowLines ++ footerParts := by
  unfold generate_index_html
  rw [generate_loop_eq]

theorem bind_decomp {α β : Type} (f : α → List β) {e : α} {l : List α} (h : e ∈ l) :
    ∃ a b, l.flatMap f = a ++ f e ++ b := by
  induction l with
  | nil => cases h
  | cons x xs ih =>
    rcases List.mem_cons.mp h with h2 | h2
    · subst h2; exact ⟨[], xs.flatMap f, by simp⟩
    · obtain ⟨a, b, hab⟩ := ih h2
      exact ⟨f x ++ a, b, by simp [hab, List.append_assoc]⟩


theorem takeDigits_append : ∀ l : List Char, (takeDigits l).1 ++ (takeDigits l).2 = l := by
  intro l
  induction l with
  | nil => simp [takeDigits]
  | cons c cs ih =>
    simp only [takeDigits]
    split
    · simp [ih]
    · simp

theorem takeDigits_digits : ∀ l : List Char, ∀ c ∈ (takeDigits l).1, c.isDigit = true := by
  intro l
  induction l with
  | nil => simp [takeDigits]
  | cons c cs ih =>
    simp only [takeDigits]
    split
    · rename_i hd
      intro x hx
      rcases List.mem_cons.mp hx with hx | hx
      · subst hx; exact hd
      · exact ih x hx
    · simp

theorem takeDigits_run (ds : List Char) (hds : ∀ c ∈ ds, c.isDigit = true)
    (c : Char) (hc : c.isDigit = false) (r : List Char) :
    takeDigits (ds ++ c :: r) = (ds, c :: r) := by
  induction ds with
  | nil => simp [takeDigits, hc]
  | cons d ds ih =>
    have hd : d.isDigit = true := hds d (by simp)
    have ih2 := ih (fun x hx => hds x (by simp [hx]))
    simp only [List.cons_append, takeDigits, hd, if_true, List.append_eq, ih2]

theorem tailOk_iff (t : List Char) : tailOk t = true ↔ t = [] ∨ t = ['\n'] := by
  match t with
  | [] => simp [tailOk]
  | [c] =>
    simp only [tailOk, beq_iff_eq]
    constructor
    · intro h; right; rw [h]
    · intro h
      rcases h with h | h
      · cases h
      · cases h; rfl
  | c :: d :: r => simp [tailOk]

theorem pyMatch_iff (f : List Char) (n : Nat) :
    pyMatch f = some n ↔
      ∃ ds, ds ≠ [] ∧ (∀ c ∈ ds, c.isDigit = true) ∧ n = parseDigits ds ∧
        (f = "transcript_ep".data ++ ds ++ ".html".data ∨
         f = "transcript_ep".data ++ ds ++ ".html".data ++ ['\n']) := by
  constructor
  · intro h
    unfold pyMatch at h
    split at h
    case isFalse => exact absurd h (by simp)
    case isTrue hpre =>
      split at h
      case isTrue => exact absurd h (by simp)
      case isFalse hne =>
        split at h
        case isFalse => exact absurd h (by simp)
        case isTrue hsuf =>
          split at h
          case isFalse => exact absurd h (by simp)
          case isTrue htail =>
            rcases hTD : takeDigits (f.drop 13) with ⟨ds, rest⟩
            rw [hTD] at h hne hsuf htail
            dsimp only at h hne hsuf htail
            refine ⟨ds, hne, ?_, ?_, ?_⟩
            · intro c hc
              have hdig := takeDigits_digits (f.drop 13) c
              rw [hTD] at hdig
              exact hdig hc
            · cases h; rfl
            · have hsplit : ds ++ rest = f.drop 13 := by
                have hap := takeDigits_append (f.drop 13)
                rw [hTD] at hap
                exact hap
              have hf : f = "transcript_ep".data ++ (ds ++ rest) := by
                rw [hsplit, ← hpre, List.take_append_drop]
              have hrest : rest = ".html".data ++ rest.drop 5 := by
                conv_lhs => rw [← List.take_append_drop 5 rest]
                rw [hsuf]
              rcases (tailOk_iff _).mp htail with hT | hT
              · left
                rw [hf, hrest, hT]
                simp
              · right
                rw [hf, hrest, hT]
                simp
  · rintro ⟨ds, hne, hdig, hn, hf | hf⟩
    · have hlen : ("transcript_ep".data).length = 13 := by decide
      have hTake : f.take 13 = "transcript_ep".data := by
        rw [hf, List.append_assoc, ← hlen, List.take_left]
      have hDrop : f.drop 13 = ds ++ ".html".data := by
        rw [hf, List.append_assoc, ← hlen, List.drop_left]
      have hdot : (ds ++ ".html".data) = ds ++ '.' :: "html".data := by rfl
      have hTD : takeDigits (f.drop 13) = (ds, '.' :: "html".data) := by
        rw [hDrop, hdot]
        exact takeDigits_run ds hdig '.' (by decide) _
      unfold pyMatch
      rw [hTake, if_pos rfl, hTD]
      simp only [if_neg hne]
      have h5 : ('.' :: "html".data : List Char).take 5 = ".html".data := by decide
      have hD5 : ('.' :: "html".data : List Char).drop 5 = [] := by decide
      rw [h5, if_pos rfl, hD5]
      simp [tailOk, hn]
    · have hlen : ("transcript_ep".data).length = 13 := by decide
      have hTake : f.take 13 = "transcript_ep".data := by
        rw [hf, List.append_assoc, List.append_assoc, ← hlen, List.take_left]
      have hDrop : f.drop 13 = ds ++ ".html".data ++ ['\n'] := by
        rw [hf, List.append_assoc, List.append_assoc, ← hlen, List.drop_left,
          ← List.append_assoc]
      have hdot : (ds ++ ".html".data ++ ['\n']) = ds ++ '.' :: ("html".data ++ ['\n']) := by
        simp
      have hTD : takeDigits (f.drop 13) = (ds, '.' :: ("html".data ++ ['\n'])) := by
        rw [hDrop, hdot]
        exact takeDigits_run ds hdig '.' (by decide) _
      unfold pyMatch
      rw [hTake, if_pos rfl, hTD]
      simp only [if_neg hne]
      have h5 : ('.' :: ("html".data ++ ['\n']) : List Char).take 5 = ".html".data := by decide
      have hD5 : ('.' :: ("html".data ++ ['\n']) : List Char).drop 5 = ['\n'] := by decide
      rw [h5, if_pos rfl, hD5]
      simp [tailOk, hn]

theorem startsWithCI_true_iff (p : List Char) : ∀ l : List Char,
    startsWithCI p l = true ↔ ∃ o r, l = o ++ r ∧ lowerL o = lowerL p := by
  induction p with
  | nil =>
    intro l
    simp only [startsWithCI, lowerL]
    constructor
    · intro _; exact ⟨[], l, rfl, rfl⟩
    · intro _; trivial
  | cons p ps ih =>
    intro l
    cases l with
    | nil =>
      simp only [startsWithCI]
      constructor
      · intro h; cases h
      · rintro ⟨o, r, hor, hlow⟩
        have : o.length = (p :: ps).length := by
          have := congrArg List.length hlow
          simpa [lowerL] using this
        have : o = [] := List.eq_nil_of_length_eq_zero (by
          have h0 := congrArg List.length hor
          simp at h0
          omega)
        simp [this] at hlow
        exact absurd (congrArg List.length hlow) (by simp [lowerL])
    | cons c cs =>
      simp only [startsWithCI, Bool.and_eq_true, beq_iff_eq]
      constructor
      · rintro ⟨heq, hrest⟩
        obtain ⟨o, r, hor, hlow⟩ := (ih cs).mp hrest
        refine ⟨c :: o, r, by simp [hor], ?_⟩
        simp only [lowerL, List.map_cons] at hlow ⊢
        rw [heq, hlow]
      · rintro ⟨o, r, hor, hlow⟩
        cases o with
        | nil =>
          exact absurd (congrArg List.length hlow) (by simp [lowerL])
        | cons d o' =>
          simp only [List.cons_append, List.cons.injEq] at hor
          simp only [lowerL, List.map_cons, List.cons.injEq] at hlow
          refine ⟨?_, (ih cs).mpr ⟨o', r, hor.2, hlow.2⟩⟩
          rw [hor.1, hlow.1]

theorem lowerL_length {o p : List Char} (h : lowerL o = lowerL p) : o.length = p.length := by
  have := congrArg List.length h
  simpa [lowerL] using this

theorem scanInner_sound (closeT : List Char) : ∀ l inner : List Char,
    scanInner closeT l = some inner →
    ∃ c r, l = inner ++ c ++ r ∧ lowerL c = lowerL closeT ∧ inner ≠ [] ∧ '\n' ∉ inner := by
  intro l
  induction l with
  | nil => intro inner h; cases h
  | cons x xs ih =>
    intro inner h
    simp only [scanInner] at h
    by_cases hnl : x = '\n'
    · rw [if_pos hnl] at h; cases h
    · rw [if_neg hnl] at h
      by_cases hcl : startsWithCI closeT xs = true
      · rw [if_pos hcl] at h
        cases h
        obtain ⟨o, r, hor, hlow⟩ := (startsWithCI_true_iff closeT xs).mp hcl
        refine ⟨o, r, by simp [hor], hlow, by simp, ?_⟩
        intro hm
        exact hnl (List.mem_singleton.mp hm).symm
      · rw [if_neg hcl] at h
        cases hrec : scanInner closeT xs with
        | none => rw [hrec] at h; cases h
        | some inner' =>
          rw [hrec] at h
          cases h
          obtain ⟨c, r, hxs, hlow, hne, hnotnl⟩ := ih inner' hrec
          refine ⟨c, r, by simp [hxs], hlow, by simp, ?_⟩
          intro hmem
          rcases List.mem_cons.mp hmem with hmem | hmem
          · exact hnl hmem.symm
          · exact hnotnl hmem

theorem scanInner_cons (closeT : List Char) (x : Char) (l : List Char) :
    scanInner closeT (x :: l) =
      if x = '\n' then none
      else if startsWithCI closeT l then some [x]
      else
        match scanInner closeT l with
        | some inner => some (x :: inner)
        | none => none := rfl

theorem scanInner_isSome (closeT cl r : List Char) (hcl : lowerL cl = lowerL closeT) :
    ∀ t : List Char, t ≠ [] → '\n' ∉ t →
    (scanInner closeT (t ++ cl ++ r)).isSome = true := by
  intro t
  induction t with
  | nil => intro h; exact absurd rfl h
  | cons x t' ih =>
    intro _ hnl
    have hx : ¬ x = '\n' := fun hx => hnl (by simp [hx])
    cases t' with
    | nil =>
      have hshape : ([x] ++ cl ++ r : List Char) = x :: (cl ++ r) := by simp
      rw [hshape]
      have hs : startsWithCI closeT (cl ++ r) = true :=
        (startsWithCI_true_iff closeT (cl ++ r)).mpr ⟨cl, r, rfl, hcl⟩
      rw [scanInner_cons, if_neg hx, if_pos hs]
      rfl
    | cons y t'' =>
      have ih2 := ih (by simp) (fun hm => hnl (by simp [hm]))
      have hshape : ((x :: y :: t'') ++ cl ++ r : List Char) =
          x :: (y :: (t'' ++ cl ++ r)) := by simp
      rw [hshape]
      have hshape2 : ((y :: t'') ++ cl ++ r : List Char) = y :: (t'' ++ cl ++ r) := by simp
      rw [hshape2] at ih2
      by_cases hs : startsWithCI closeT (y :: (t'' ++ cl ++ r)) = true
      · rw [scanInner_cons, if_neg hx, if_pos hs]
        rfl
      · rw [scanInner_cons, if_neg hx, if_neg hs]
        obtain ⟨i, hi⟩ := Option.isSome_iff_exists.mp ih2
        rw [hi]
        rfl

theorem TagMatch_cons {openT closeT cs t : List Char} (c : Char)
    (h : TagMatch openT closeT cs t) : TagMatch openT closeT (c :: cs) t := by
  obtain ⟨a, o, cl, b, hdec, ho, hc, hne, hnl⟩ := h
  exact ⟨c :: a, o, cl, b, by simp [hdec], ho, hc, hne, hnl⟩

theorem searchTag_sound (openT closeT : List Char) : ∀ content t : List Char,
    searchTag openT closeT content = some t → TagMatch openT closeT content t := by
  intro content
  induction content with
  | nil => intro t h; cases h
  | cons c cs ih =>
    intro t h
    simp only [searchTag] at h
    by_cases hop : startsWithCI openT (c :: cs) = true
    · rw [if_pos hop] at h
      cases hscan : scanInner closeT ((c :: cs).drop openT.length) with
      | none =>
        rw [hscan] at h
        exact TagMatch_cons c (ih t h)
      | some inner =>
        rw [hscan] at h
        cases h
        obtain ⟨o, r, hor, hlow⟩ := (startsWithCI_true_iff openT (c :: cs)).mp hop
        have hlen : o.length = openT.length := lowerL_length hlow
        have hdrop : (c :: cs).drop openT.length = r := by
          rw [hor, ← hlen, List.drop_left]
        rw [hdrop] at hscan
        obtain ⟨cl, rest, hr, hclow, hne, hnl⟩ := scanInner_sound closeT r t hscan
        refine ⟨[], o, cl, rest, ?_, hlow, hclow, hne, hnl⟩
        rw [hor, hr]
        simp [List.append_assoc]
    · rw [if_neg hop] at h
      exact TagMatch_cons c (ih t h)

theorem searchTag_isSome_cons (openT closeT : List Char) (c : Char) (cs : List Char)
    (h : (searchTag openT closeT cs).isSome = true) :
    (searchTag openT closeT (c :: cs)).isSome = true := by
  simp only [searchTag]
  by_cases hop : startsWithCI openT (c :: cs) = true
  · rw [if_pos hop]
    cases hscan : scanInner closeT ((c :: cs).drop openT.length) with
    | none => exact h
    | some inner => rfl
  · rw [if_neg hop]
    exact h

theorem searchTag_complete (openT closeT : List Char) : ∀ content t : List Char,
    TagMatch openT closeT content t → (searchTag openT closeT content).isSome = true := by
  intro content t h
  obtain ⟨a, o, cl, b, hdec, ho, hc, hne, hnl⟩ := h
  induction a generalizing content with
  | nil =>
    simp only [List.nil_append] at hdec
    have hstart : startsWithCI openT content = true := by
      refine (startsWithCI_true_iff openT content).mpr ⟨o, t ++ cl ++ b, ?_, ho⟩
      rw [hdec]; simp [List.append_assoc]
    cases hcontent : content with
    | nil =>
      rw [hcontent] at hdec
      have : t = [] := by
        have := congrArg List.length hdec
        simp at this
        exact List.eq_nil_of_length_eq_zero (by omega)
      exact absurd this hne
    | cons x xs =>
      rw [hcontent] at hstart hdec
      simp only [searchTag]
      rw [if_pos hstart]
      have hlen : o.length = openT.length := lowerL_length ho
      have hdrop : (x :: xs).drop openT.length = t ++ cl ++ b := by
        rw [hdec, ← hlen]
        have : o ++ t ++ cl ++ b = o ++ (t ++ cl ++ b) := by simp [List.append_assoc]
        rw [this, List.drop_left]
      rw [hdrop]
      obtain ⟨i, hi⟩ := Option.isSome_iff_exists.mp
        (scanInner_isSome closeT cl b hc t hne hnl)
      rw [hi]
      rfl
  | cons x a' ih =>
    cases hcontent : content with
    | nil =>
      rw [hcontent] at hdec
      exact absurd hdec (by simp)
    | cons y ys =>
      rw [hcontent] at hdec
      simp only [List.cons_append, List.cons.injEq] at hdec
      exact searchTag_isSome_cons openT closeT y ys (ih ys hdec.2)

theorem extractAll_some (readFile : List Char → Option (List Char)) :
    ∀ tfs : List EpisodeFile, (∀ tf ∈ tfs, (readFile tf.path).isSome = true) →
    extractAll readFile tfs = some (tfs.map (fun tf =>
      { filename := tf.filename, episode_num := tf.episode_num,
        title := extract_episode_title ((readFile tf.path).getD []) })) := by
  intro tfs
  induction tfs with
  | nil => intro _; rfl
  | cons tf tfs ih =>
    intro h
    obtain ⟨c, hc⟩ := Option.isSome_iff_exists.mp (h tf (by simp))
    have ih2 := ih (fun x hx => h x (by simp [hx]))
    simp only [extractAll, hc, ih2, List.map_cons, Option.getD_some]

theorem TagMatch_iff_at (openT closeT content t : List Char) :
    TagMatch openT closeT content t ↔ ∃ i, TagMatchAt openT closeT content t i := by
  constructor
  · rintro ⟨a, o, c, b, heq, ho, hc, hne, hnl⟩
    exact ⟨a.length, a, o, c, b, heq, rfl, ho, hc, hne, hnl⟩
  · rintro ⟨i, a, o, c, b, heq, _, ho, hc, hne, hnl⟩
    exact ⟨a, o, c, b, heq, ho, hc, hne, hnl⟩

theorem TagMatchAt_shift {openT closeT cs t : List Char} {i : Nat} (c : Char)
    (h : TagMatchAt openT closeT cs t i) : TagMatchAt openT closeT (c :: cs) t (i + 1) := by
  obtain ⟨a, o, cl, b, heq, hlen, ho, hc, hne, hnl⟩ := h
  exact ⟨c :: a, o, cl, b, by simp [heq], by simp [hlen], ho, hc, hne, hnl⟩

theorem TagMatchAt_unshift {openT closeT t : List Char} {c : Char} {cs : List Char} {j : Nat}
    (h : TagMatchAt openT closeT (c :: cs) t (j + 1)) : TagMatchAt openT closeT cs t j := by
  obtain ⟨a, o, cl, b, heq, hlen, ho, hc, hne, hnl⟩ := h
  cases a with
  | nil => cases hlen
  | cons x a2 =>
    have heq2 : c :: cs = x :: (a2 ++ o ++ t ++ cl ++ b) := by
      rw [heq]; simp [List.append_assoc]
    have hc2 := (List.cons.injEq _ _ _ _).mp heq2
    refine ⟨a2, o, cl, b, hc2.2, ?_, ho, hc, hne, hnl⟩
    have : a2.length + 1 = j + 1 := by simpa using hlen
    omega

theorem TagMatchAt_zero {openT closeT l t : List Char}
    (h : TagMatchAt openT closeT l t 0) :
    startsWithCI openT l = true ∧
    ∃ cl b, l.drop openT.length = t ++ cl ++ b ∧ lowerL cl = lowerL closeT ∧
      t ≠ [] ∧ '\n' ∉ t := by
  obtain ⟨a, o, cl, b, heq, hlen, ho, hc, hne, hnl⟩ := h
  have ha : a = [] := List.eq_nil_of_length_eq_zero hlen
  subst ha
  simp only [List.nil_append] at heq
  have hol : o.length = openT.length := lowerL_length ho
  constructor
  · refine (startsWithCI_true_iff openT l).mpr ⟨o, t ++ cl ++ b, ?_, ho⟩
    rw [heq]; simp [List.append_assoc]
  · refine ⟨cl, b, ?_, hc, hne, hnl⟩
    rw [heq, ← hol]
    have : o ++ t ++ cl ++ b = o ++ (t ++ cl ++ b) := by simp [List.append_assoc]
    rw [this, List.drop_left]

theorem scanInner_shortest (closeT : List Char) : ∀ l inner : List Char,
    scanInner closeT l = some inner →
    ∀ t2 c2 r2 : List Char, l = t2 ++ c2 ++ r2 → lowerL c2 = lowerL closeT →
      t2 ≠ [] → '\n' ∉ t2 → inner.length ≤ t2.length := by
  intro l
  induction l with
  | nil => intro inner h; cases h
  | cons x xs ih =>
    intro inner h t2 c2 r2 hdec hc2 hne2 hnl2
    rw [scanInner_cons] at h
    by_cases hx : x = '\n'
    · rw [if_pos hx] at h; cases h
    · rw [if_neg hx] at h
      by_cases hs : startsWithCI closeT xs = true
      · rw [if_pos hs] at h
        cases h
        have : 0 < t2.length := List.length_pos.mpr hne2
        simpa using this
      · rw [if_neg hs] at h
        cases hrec : scanInner closeT xs with
        | none => rw [hrec] at h; cases h
        | some inner2 =>
          rw [hrec] at h
          cases h
          cases t2 with
          | nil => exact absurd rfl hne2
          | cons y t3 =>
            have hdec2 : x :: xs = y :: (t3 ++ c2 ++ r2) := by
              rw [hdec]; simp [List.append_assoc]
            have hinj := (List.cons.injEq _ _ _ _).mp hdec2
            cases t3 with
            | nil =>
              have hxs : xs = c2 ++ r2 := by simpa using hinj.2
              have : startsWithCI closeT xs = true :=
                (startsWithCI_true_iff closeT xs).mpr ⟨c2, r2, hxs, hc2⟩
              exact absurd this hs
            | cons z t4 =>
              have hlen := ih inner2 hrec (z :: t4) c2 r2 (by simpa using hinj.2) hc2
                (by simp) (fun hm => hnl2 (by simp [hm]))
              simpa using Nat.succ_le_succ hlen

theorem searchTag_cons (openT closeT : List Char) (c : Char) (cs : List Char) :
    searchTag openT closeT (c :: cs) =
      if startsWithCI openT (c :: cs) then
        match scanInner closeT ((c :: cs).drop openT.length) with
        | some inner => some inner
        | none => searchTag openT closeT cs
      else searchTag openT closeT cs := rfl

theorem searchTag_first (openT closeT : List Char) : ∀ content t : List Char,
    searchTag openT closeT content = some t →
    ∃ i, TagMatchAt openT closeT content t i ∧
      (∀ j t2, TagMatchAt openT closeT content t2 j → i ≤ j) ∧
      (∀ t2, TagMatchAt openT closeT content t2 i → t.length ≤ t2.length) := by
  intro content
  induction content with
  | nil => intro t h; cases h
  | cons c cs ih =>
    intro t h
    rw [searchTag_cons] at h
    by_cases hop : startsWithCI openT (c :: cs) = true
    · rw [if_pos hop] at h
      cases hscan : scanInner closeT ((c :: cs).drop openT.length) with
      | some inner =>
        rw [hscan] at h
        cases h
        refine ⟨0, ?_, fun j t2 _ => Nat.zero_le j, ?_⟩
        · obtain ⟨o, r, hor, hlow⟩ := (startsWithCI_true_iff openT (c :: cs)).mp hop
          have hlen : o.length = openT.length := lowerL_length hlow
          have hdrop : (c :: cs).drop openT.length = r := by
            rw [hor, ← hlen, List.drop_left]
          rw [hdrop] at hscan
          obtain ⟨cl, rest, hr, hclow, hne, hnl⟩ := scanInner_sound closeT r t hscan
          refine ⟨[], o, cl, rest, ?_, rfl, hlow, hclow, hne, hnl⟩
          rw [hor, hr]
          simp [List.append_assoc]
        · intro t2 hm0
          obtain ⟨_, cl, b, hdropEq, hclow, hne2, hnl2⟩ := TagMatchAt_zero hm0
          rw [hdropEq] at hscan
          exact scanInner_shortest closeT _ t hscan t2 cl b rfl hclow hne2 hnl2
      | none =>
        rw [hscan] at h
        obtain ⟨i, hAt, hleft, hshort⟩ := ih t h
        refine ⟨i + 1, TagMatchAt_shift c hAt, ?_, ?_⟩
        · intro j t2 hj
          cases j with
          | zero =>
            obtain ⟨_, cl, b, hdropEq, hclow, hne2, hnl2⟩ := TagMatchAt_zero hj
            have hsome := scanInner_isSome closeT cl b hclow t2 hne2 hnl2
            rw [← hdropEq] at hsome
            rw [hscan] at hsome
            cases hsome
          | succ j2 =>
            exact Nat.succ_le_succ (hleft j2 t2 (TagMatchAt_unshift hj))
        · intro t2 h2
          exact hshort t2 (TagMatchAt_unshift h2)
    · rw [if_neg hop] at h
      obtain ⟨i, hAt, hleft, hshort⟩ := ih t h
      refine ⟨i + 1, TagMatchAt_shift c hAt, ?_, ?_⟩
      · intro j t2 hj
        cases j with
        | zero => exact absurd (TagMatchAt_zero hj).1 hop
        | succ j2 => exact Nat.succ_le_succ (hleft j2 t2 (TagMatchAt_unshift hj))
      · intro t2 h2
        exact hshort t2 (TagMatchAt_unshift h2)

/- ----------------------------------------------------------------- -/
/- Claims                                                             -/
/- ----------------------------------------------------------------- -/

/-- Claim C1, counterexample to the claim as stated: with the listing
holding both transcript_ep01.html and transcript_ep1.html, Discovery
returns two records with the same episode number 1, so the output is
not sorted strictly ascending; and a filename with one trailing newline
is accepted by the code's regex although it does not equal
transcript_ep + digits + .html exactly. -/
theorem find_transcript_files_claim_counterexample :
    ((find_transcript_files "episodes".data
        ["transcript_ep01.html".data, "transcript_ep1.html".data]).map
      (fun r => r.episode_num) = [1, 1]) ∧
    ¬ List.Pairwise (fun a b => a.episode_num < b.episode_num)
      (find_transcript_files "episodes".data
        ["transcript_ep01.html".data, "transcript_ep1.html".data]) ∧
    (find_transcript_files "episodes".data
        ["transcript_ep7.html\n".data]).map (fun r => r.episode_num) = [7] ∧
    specExactMatch "transcript_ep7.html\n".data = false := by
  have hmap : (find_transcript_files "episodes".data
      ["transcript_ep01.html".data, "transcript_ep1.html".data]).map
      (fun r => r.episode_num) = [1, 1] := by decide
  refine ⟨hmap, ?_, by decide, by decide⟩
  intro h
  have hm : List.Pairwise (fun a b : Nat => a < b) [1, 1] := by
    rw [← hmap]
    exact List.pairwise_map.mpr h
  exact absurd hm (by decide)

/-- Claim C1 (amended): Discovery returns a permutation of exactly the
records for the listing's matching filenames (the pattern being
transcript_ep, one or more digits, .html, optionally followed by one
final newline accepted by the regex end anchor), parses the digit run
as the episode number, and sorts ascending by that number; the order is
strictly ascending whenever the parsed numbers are pairwise distinct. -/
theorem find_transcript_files_spec (dir : List Char) (listing : List (List Char)) :
    List.Perm (find_transcript_files dir listing) (listing.filterMap (recOf dir)) ∧
    List.Pairwise (fun a b => a.episode_num ≤ b.episode_num)
      (find_transcript_files dir listing) ∧
    (∀ r ∈ find_transcript_files dir listing, pyMatch r.filename = some r.episode_num) ∧
    (∀ f n, pyMatch f = some n ↔ ∃ ds, ds ≠ [] ∧ (∀ c ∈ ds, c.isDigit = true) ∧
      n = parseDigits ds ∧
      (f = "transcript_ep".data ++ ds ++ ".html".data ∨
       f = "transcript_ep".data ++ ds ++ ".html".data ++ ['\n'])) ∧
    (List.Pairwise (fun a b => a.episode_num ≠ b.episode_num)
        (listing.filterMap (recOf dir)) →
      List.Pairwise (fun a b => a.episode_num < b.episode_num)
        (find_transcript_files dir listing)) := by
  have hperm : List.Perm (find_transcript_files dir listing)
      (listing.filterMap (recOf dir)) := sortByNum_perm _
  refine ⟨hperm, sortByNum_pairwise _, ?_, pyMatch_iff, ?_⟩
  · intro r hr
    have hr2 : r ∈ listing.filterMap (recOf dir) := hperm.mem_iff.mp hr
    obtain ⟨f, _, hrec⟩ := List.mem_filterMap.mp hr2
    obtain ⟨n, hn, hmk⟩ := Option.map_eq_some'.mp hrec
    rw [← hmk]
    exact hn
  · intro hne
    have hsymm : ∀ {x y : EpisodeFile},
        x.episode_num ≠ y.episode_num → y.episode_num ≠ x.episode_num :=
      fun h => Ne.symm h
    have hneOut : List.Pairwise (fun a b => a.episode_num ≠ b.episode_num)
        (find_transcript_files dir listing) :=
      (hperm.pairwise_iff hsymm).mpr hne
    exact ((sortByNum_pairwise _).and hneOut).imp
      (fun h => Nat.lt_of_le_of_ne h.1 h.2)

/-- Claim C1, witness: a concrete listing with distinct episode numbers
where the amended theorem yields a strictly ascending output. -/
theorem find_transcript_files_spec_witness :
    List.Pairwise (fun a b => a.episode_num < b.episode_num)
      (find_transcript_files "episodes".data
        ["transcript_ep2.html".data, "readme.txt".data, "transcript_ep1.html".data]) :=
  (find_transcript_files_spec "episodes".data
    ["transcript_ep2.html".data, "readme.txt".data, "transcript_ep1.html".data]).2.2.2.2
    (by decide)

/-- Claim C10: with a listing holding transcript_ep1.html then
transcript_ep01.html, both records are returned with episode number 1
(the digit runs differ only in a leading zero), in the underlying
listing order (the sort is stable), so the output is ascending but not
strictly ascending. -/
theorem duplicate_episode_nums :
    find_transcript_files "episodes".data
        ["transcript_ep1.html".data, "transcript_ep01.html".data] =
      [{ filename := "transcript_ep1.html".data, episode_num := 1,
         path := "episodes/transcript_ep1.html".data },
       { filename := "transcript_ep01.html".data, episode_num := 1,
         path := "episodes/transcript_ep01.html".data }] ∧
    List.Pairwise (fun a b => a.episode_num ≤ b.episode_num)
      (find_transcript_files "episodes".data
        ["transcript_ep1.html".data, "transcript_ep01.html".data]) ∧
    ¬ List.Pairwise (fun a b => a.episode_num < b.episode_num)
      (find_transcript_files "episodes".data
        ["transcript_ep1.html".data, "transcript_ep01.html".data]) := by
  have heq : find_transcript_files "episodes".data
      ["transcript_ep1.html".data, "transcript_ep01.html".data] =
      [{ filename := "transcript_ep1.html".data, episode_num := 1,
         path := "episodes/transcript_ep1.html".data },
       { filename := "transcript_ep01.html".data, episode_num := 1,
         path := "episodes/transcript_ep01.html".data }] := by decide
  have hmap : (find_transcript_files "episodes".data
      ["transcript_ep1.html".data, "transcript_ep01.html".data]).map
      (fun r => r.episode_num) = [1, 1] := by rw [heq]; decide
  refine ⟨heq, ?_, ?_⟩
  · exact List.pairwise_map.mp (by rw [hmap]; decide)
  · intro h
    have hm : List.Pairwise (fun a b : Nat => a < b) [1, 1] := by
      rw [← hmap]
      exact List.pairwise_map.mpr h
    exact absurd hm (by decide)

/-- Claim C2, counterexample to the claim as stated: on a file whose
first heading holds the show-name prefix, extract_episode_title does
not return the first non-greedy heading match itself but the match
after prefix normalization. -/
theorem extract_title_counterexample :
    firstH1 "<h1>Carbon and Cardboard - Pilot</h1>".data =
      some "Carbon and Cardboard - Pilot".data ∧
    extract_episode_title "<h1>Carbon and Cardboard - Pilot</h1>".data = "Pilot".data ∧
    "Pilot".data ≠ "Carbon and Cardboard - Pilot".data := by
  refine ⟨by decide, by decide, by decide⟩

/-- Claim C2 (amended): extract_episode_title returns, after show-name
prefix normalization, the first non-greedy match inside a
heading-level-1 element (case-insensitive tag match) when one exists —
and such a search hit is a genuine occurrence of the tag pair in the
content; otherwise, the same for the first match inside a title
element; when the content holds no heading-level-1 occurrence and no
title occurrence at all, it returns exactly "Unknown Episode".  The
returned match is the first one non-greedily: its occurrence starts at
the leftmost position of any occurrence, and among occurrences starting
there its enclosed text is shortest. -/
theorem extract_episode_title_spec (content : List Char) :
    (∀ t, firstH1 content = some t →
      extract_episode_title content = stripShowName t ∧
        TagMatch "<h1>".data "</h1>".data content t) ∧
    (firstH1 content = none → ∀ t, firstTitleTag content = some t →
      extract_episode_title content = stripShowName t ∧
        TagMatch "<title>".data "</title>".data content t) ∧
    (firstH1 content = none → ∀ t, ¬ TagMatch "<h1>".data "</h1>".data content t) ∧
    (firstTitleTag content = none → ∀ t, ¬ TagMatch "<title>".data "</title>".data content t) ∧
    ((¬ ∃ t, TagMatch "<h1>".data "</h1>".data content t) →
      (¬ ∃ t, TagMatch "<title>".data "</title>".data content t) →
      extract_episode_title content = fallbackTitle) ∧
    (∀ t, firstH1 content = some t → ∃ i,
      TagMatchAt "<h1>".data "</h1>".data content t i ∧
      (∀ j u, TagMatchAt "<h1>".data "</h1>".data content u j → i ≤ j) ∧
      (∀ u, TagMatchAt "<h1>".data "</h1>".data content u i → t.length ≤ u.length)) ∧
    (∀ t, firstTitleTag content = some t → ∃ i,
      TagMatchAt "<title>".data "</title>".data content t i ∧
      (∀ j u, TagMatchAt "<title>".data "</title>".data content u j → i ≤ j) ∧
      (∀ u, TagMatchAt "<title>".data "</title>".data content u i →
        t.length ≤ u.length)) := by
  refine ⟨?_, ?_, ?_, ?_, ?_, ?_, ?_⟩
  · intro t h
    exact ⟨by simp only [extract_episode_title, h],
      searchTag_sound "<h1>".data "</h1>".data content t h⟩
  · intro h1 t h2
    exact ⟨by simp only [extract_episode_title, h1, h2],
      searchTag_sound "<title>".data "</title>".data content t h2⟩
  · intro h1 t hm
    have := searchTag_complete "<h1>".data "</h1>".data content t hm
    rw [firstH1] at h1
    rw [h1] at this
    cases this
  · intro h1 t hm
    have := searchTag_complete "<title>".data "</title>".data content t hm
    rw [firstTitleTag] at h1
    rw [h1] at this
    cases this
  · intro hno1 hno2
    cases hc1 : firstH1 content with
    | some t => exact absurd ⟨t, searchTag_sound _ _ content t hc1⟩ hno1
    | none =>
      cases hc2 : firstTitleTag content with
      | some t => exact absurd ⟨t, searchTag_sound _ _ content t hc2⟩ hno2
      | none => simp only [extract_episode_title, hc1, hc2]
  · intro t h
    exact searchTag_first "<h1>".data "</h1>".data content t h
  · intro t h
    exact searchTag_first "<title>".data "</title>".data content t h

/-- Claim C2, witness: a concrete file whose heading is found, returned
after normalization (which leaves this title unchanged), and the hit is
a genuine occurrence. -/
theorem extract_episode_title_spec_witness :
    extract_episode_title "<p>x</p><H1>Interlude</H1>".data =
      stripShowName "Interlude".data ∧
    TagMatch "<h1>".data "</h1>".data "<p>x</p><H1>Interlude</H1>".data "Interlude".data :=
  (extract_episode_title_spec "<p>x</p><H1>Interlude</H1>".data).1
    "Interlude".data (by decide)

/-- Claim C3: the show-name prefix followed by optional whitespace and
a hyphen is stripped case-insensitively; the two concrete variants
behave as stated and a title that does not start with the show name is
returned unchanged. -/
theorem stripShowName_spec :
    stripShowName "Carbon and Cardboard - Pilot Episode".data = "Pilot Episode".data ∧
    stripShowName "carbon and cardboard-Pilot".data = "Pilot".data ∧
    stripShowName "Pilot Episode".data = "Pilot Episode".data ∧
    (∀ t : List Char, startsWithCI showName t = false → stripShowName t = t) := by
  refine ⟨by decide, by decide, by decide, ?_⟩
  intro t h
  simp [stripShowName, h]

/-- Claim C3, witness: the general unchanged case applied to a concrete
title without the prefix. -/
theorem stripShowName_spec_witness :
    stripShowName "The Cardboard Menace".data = "The Cardboard Menace".data :=
  stripShowName_spec.2.2.2 "The Cardboard Menace".data (by decide)

/-- Claim C4: the generated document is the fixed head, then exactly one
table row per Episode in input order, then the fixed closing lines; each
row's first cell is the episode's title, and its second cell holds three
hyperlinks: the episode's own source filename and the two placeholder
URLs obtained by interpolating the episode number into the two fixed
URL templates. -/
theorem generate_index_html_rows (episodes : List Episode) (css : List Char) :
    generate_index_html episodes css =
      headerParts css ++ episodes.flatMap rowLines ++ footerParts ∧
    ∀ e : Episode, rowLines e =
      [ "                <tr>".data,
        "                    <td class=\"episode-name\">".data ++ e.title ++ "</td>".data,
        "                    <td>".data,
        "                        <a href=\"".data ++ e.filename
          ++ "\" class=\"link-btn link-transcript\">Transcript</a>".data,
        "                        <a href=\"".data
          ++ ("https://open.spotify.com/show/placeholder-episode-".data
              ++ Nat.toDigits 10 e.episode_num)
          ++ "\" class=\"link-btn link-spotify\" target=\"_blank\">Spotify</a>".data,
        "                        <a href=\"".data
          ++ ("https://youtube.com/watch?v=placeholder-episode-".data
              ++ Nat.toDigits 10 e.episode_num)
          ++ "\" class=\"link-btn link-youtube\" target=\"_blank\">YouTube</a>".data,
        "                    </td>".data,
        "                </tr>".data ] :=
  ⟨generate_index_html_decomp episodes css, fun _ => rfl⟩

/-- Claim C5: a missing episodes directory, or a directory with zero
matching transcript filenames, makes the run exit with status 1, and in
both cases nothing is written to index.html. -/
theorem main_failure_exits (fs : FS) :
    (fs.listing = none → runMain fs = RunOutcome.exited 1 none) ∧
    (∀ l, fs.listing = some l → find_transcript_files fs.dirPath l = [] →
      runMain fs = RunOutcome.exited 1 none) := by
  constructor
  · intro h
    simp only [runMain, h]
  · intro l h hempty
    simp only [runMain, h, hempty]



/-- Claim C5, witness: the two failure worlds evaluated concretely. -/
theorem main_failure_exits_witness :
    runMain fsMissingDir = RunOutcome.exited 1 none ∧
    runMain fsNoMatches = RunOutcome.exited 1 none :=
  ⟨(main_failure_exits fsMissingDir).1 rfl,
   (main_failure_exits fsNoMatches).2 ["readme.txt".data, "notes_ep1.html".data]
     rfl (by decide)⟩


/-- Claim C6, counterexample to the claim as stated: a run with one
unreadable (or not UTF-8-decodable) transcript aborts with an uncaught
exception, so the other, perfectly readable episode is never indexed,
although its title would extract fine. -/
theorem runMain_bad_file_aborts :
    extract_episode_title "<h1>Second</h1>".data = "Second".data ∧
    runMain fsCrash = RunOutcome.crashed := by
  refine ⟨by decide, by decide⟩

/-- Claim C6 (amended): a malformed transcript that still decodes as
text degrades gracefully — extraction falls through to its fallback and
the remaining episodes are indexed; only when every matched file reads
successfully does the run exit 0 and write the index with one entry per
matched file; an unreadable or undecodable file instead aborts the run. -/
theorem runMain_reads_ok (fs : FS) (l : List (List Char))
    (hl : fs.listing = some l)
    (hne : find_transcript_files fs.dirPath l ≠ [])
    (hreads : ∀ tf ∈ find_transcript_files fs.dirPath l,
      (fs.readFile tf.path).isSome = true) :
    runMain fs = RunOutcome.exited 0 (some (generate_index_html_string
      ((find_transcript_files fs.dirPath l).map (fun tf =>
        { filename := tf.filename, episode_num := tf.episode_num,
          title := extract_episode_title ((fs.readFile tf.path).getD []) }))
      defaultCss)) := by
  have hext := extractAll_some fs.readFile (find_transcript_files fs.dirPath l) hreads
  cases hfind : find_transcript_files fs.dirPath l with
  | nil => exact absurd hfind hne
  | cons tf tfs =>
    rw [hfind] at hext
    unfold runMain
    rw [hl]
    dsimp only
    rw [hfind]
    dsimp only
    rw [hext]


/-- Claim C6, witness: a world with one malformed (but decodable) file
and one well-formed file; the run completes, exits 0 and writes an
index holding both episodes. -/
theorem runMain_reads_ok_witness :
    runMain fsMixed = RunOutcome.exited 0 (some (generate_index_html_string
      ((find_transcript_files "episodes".data
          ["transcript_ep2.html".data, "transcript_ep1.html".data]).map (fun tf =>
        { filename := tf.filename, episode_num := tf.episode_num,
          title := extract_episode_title ((fsMixed.readFile tf.path).getD []) }))
      defaultCss)) :=
  runMain_reads_ok fsMixed ["transcript_ep2.html".data, "transcript_ep1.html".data]
    rfl (by decide) (by decide)

/-- Claim C7: rendering is deterministic — two invocations of the
generator on equal Episode sequences and equal stylesheet names produce
byte-identical output documents. -/
theorem generate_index_html_deterministic (e1 e2 : List Episode) (c1 c2 : List Char)
    (h1 : e1 = e2) (h2 : c1 = c2) :
    generate_index_html_string e1 c1 = generate_index_html_string e2 c2 := by
  rw [h1, h2]

/-- Claim C7, witness: the determinism theorem applied at a concrete
input. -/
theorem generate_index_html_deterministic_witness :
    generate_index_html_string
        [{ filename := "transcript_ep1.html".data, episode_num := 1,
           title := "First".data }] defaultCss =
      generate_index_html_string
        [{ filename := "transcript_ep1.html".data, episode_num := 1,
           title := "First".data }] defaultCss :=
  generate_index_html_deterministic _ _ _ _ rfl rfl

/-- Claim C8: no episode is dropped from the table for lacking a title —
an episode whose extraction ended in the fallback still gets its row,
whose first cell is exactly the literal fallback cell with
"Unknown Episode" rendered as-is. -/
theorem fallback_row_rendered (episodes : List Episode) (css : List Char) (e : Episode)
    (he : e ∈ episodes) (ht : e.title = fallbackTitle) :
    (∃ a b, generate_index_html episodes css = a ++ rowLines e ++ b) ∧
    (rowLines e)[1]? =
      some "                    <td class=\"episode-name\">Unknown Episode</td>".data := by
  constructor
  · obtain ⟨a, b, hab⟩ := bind_decomp rowLines he
    refine ⟨headerParts css ++ a, b ++ footerParts, ?_⟩
    rw [generate_index_html_decomp, hab]
    simp [List.append_assoc]
  · have hcell : (rowLines e)[1]? =
        some ("                    <td class=\"episode-name\">".data
          ++ e.title ++ "</td>".data) := rfl
    rw [hcell, ht]
    rfl


/-- Claim C8, witness: a concrete fallback-titled episode gets its row,
with the fallback string verbatim in the first cell. -/
theorem fallback_row_rendered_witness :
    (∃ a b, generate_index_html [epFallback] defaultCss = a ++ rowLines epFallback ++ b) ∧
    (rowLines epFallback)[1]? =
      some "                    <td class=\"episode-name\">Unknown Episode</td>".data :=
  fallback_row_rendered [epFallback] defaultCss epFallback (by simp) rfl

/-- Claim C9: the title string of every episode is interpolated into its
table cell verbatim — the cell line is the literal cell opening, the
title with no escaping of any kind, and the literal cell closing. -/
theorem title_rendered_verbatim (episodes : List Episode) (css : List Char) (e : Episode)
    (he : e ∈ episodes) :
    ("                    <td class=\"episode-name\">".data ++ e.title ++ "</td>".data)
      ∈ generate_index_html episodes css := by
  obtain ⟨a, b, hab⟩ := bind_decomp rowLines he
  rw [generate_index_html_decomp, hab]
  have hcell : ("                    <td class=\"episode-name\">".data
      ++ e.title ++ "</td>".data) ∈ rowLines e := by
    simp [rowLines]
  exact List.mem_append.mpr (Or.inl (List.mem_append.mpr (Or.inr
    (List.mem_append.mpr (Or.inl (List.mem_append.mpr (Or.inr hcell)))))))


/-- Claim C9, witness: a title full of markup characters appears
unchanged inside the generated table cell. -/
theorem title_rendered_verbatim_witness :
    ("                    <td class=\"episode-name\">".data ++ epMarkup.title
      ++ "</td>".data) ∈ generate_index_html [epMarkup] defaultCss :=
  title_rendered_verbatim [epMarkup] defaultCss epMarkup (by simp)
